import Mathlib

/-
Verification development for the dmm launcher.

The embedding below follows src/main.rs. The library crate modules
(dmm::config, dmm::tag, dmm::imstr) are not part of the given sources, so the
few types and codec functions coming from them are modelled from the
specification; every such definition carries a doc comment saying so.

External effects are made explicit inputs:
  - the filesystem seen by entry discovery is a forest of FsTree values, one
    read_dir outcome per search directory (the expansion of config path strings
    and of the PATH variable into a directory list is outside the embedding);
  - process spawning is an oracle telling whether a given program launches;
  - warnings printed to stderr are counted;
  - a Rust panic or a fatal anyhow error is an Except error or Option none.
-/

set_option linter.unusedVariables false

namespace Dmm

/-- Immutable string type of the dmm crate; modelled as String. -/
abbrev ImStr := String

/-- Modelled from the spec: dmm::config::Run, a run action. A Bare action is a
program plus argument vector executed directly; a Shell action is a command
string handed to the configured shell interpreter. -/
inductive Run where
  | Bare : List ImStr → Run
  | Shell : ImStr → Run
deriving DecidableEq, Repr

/-- Modelled from the spec: Run::binary builds a bare action invoking the given
program name with no further arguments. -/
def Run.binary (s : ImStr) : Run :=
  Run.Bare [s]

/-- Modelled from the spec: dmm::config::Entry, one configured entry. Full
declares name, run action and group; Name declares a name only; Filter is the
variant that never becomes runnable. -/
inductive Entry where
  | Full (name : ImStr) (run : Run) (group : Int)
  | Name (name : ImStr)
  | Filter (name : ImStr)
deriving DecidableEq, Repr

/-- Modelled from the spec: Entry::name, the display name of a configured
entry. -/
def Entry.name : Entry → ImStr
  | .Full n _ _ => n
  | .Name n => n
  | .Filter n => n

/-- RunEntry from src/main.rs lines 19 to 24: a resolved menu entry. -/
structure RunEntry where
  name : ImStr
  run : Run
  group : Int
deriving DecidableEq, Repr

/-- RunEntry::try_from, src/main.rs lines 26 to 42. A Full entry keeps its
declared run action; a Name entry defaults to a shell action on the name when
the passed flag is true and to a bare action on the name otherwise; a Filter
yields nothing. -/
def RunEntry.try_from (entry : Entry) (shell_is_enabled : Bool) : Option RunEntry :=
  match entry with
  | .Full name run group => some ⟨name, run, group⟩
  | .Name name =>
      some ⟨name, if shell_is_enabled then Run.Shell name else Run.binary name, 0⟩
  | .Filter _ => none

/-- Modelled from the spec: dmm::config::Shell, global shell policy. Enabled
carries the interpreter argument vector and the piped flag. -/
inductive Shell where
  | Disabled
  | Enabled (shell : List ImStr) (piped : Bool)
deriving DecidableEq, Repr

/-- Modelled from the spec: Shell::is_enabled. -/
def Shell.is_enabled : Shell → Bool
  | .Disabled => false
  | .Enabled _ _ => true

/-- Modelled from the spec: dmm::config::Custom, the ad-hoc command policy. -/
inductive Custom where
  | Enabled
  | Disabled
deriving DecidableEq, Repr

/-- Modelled from the spec: the numbering configuration; when enabled it
carries the separator string placed between tag and name. -/
inductive Numbered where
  | Disabled
  | Enabled (separator : String)
deriving DecidableEq, Repr

/-- Modelled from the spec: Numbered::is_enabled. -/
def Numbered.is_enabled : Numbered → Bool
  | .Disabled => false
  | .Enabled _ => true

/-- Modelled from the spec: Numbered::separator; only read when numbering is
enabled. -/
def Numbered.separator : Numbered → String
  | .Disabled => ""
  | .Enabled s => s

/-- One filesystem object seen during discovery. path is the absolute path
(none when the OS path is not valid unicode, the into_string failure of
src/main.rs line 174); file_type is the result of DirEntry::file_type (line
245); follow_meta is the result of fs::metadata . is_dir when the entry is
followed as a possible symlink (lines 246 to 257, an error models a broken
symlink); executable is the is_executable check (line 261); children is the
read_dir outcome for this path, used when the walk recurses into it (none
models an unreadable directory). -/
inductive FsTree where
  | node (path : Option ImStr) (name : ImStr) (file_type : Except Unit Bool)
      (follow_meta : Except Unit Bool) (executable : Bool)
      (children : Option (List (Except Unit FsTree)))

/-- The read_dir outcome recorded in an FsTree node. -/
def FsTree.children : FsTree → Option (List (Except Unit FsTree))
  | .node _ _ _ _ _ c => c

/-- Modelled from the spec: dmm::config::BinPath, the discovery settings. The
roots list holds, in order, the read_dir outcome of every search directory
(the configured path strings after home expansion followed by the optional
PATH variable split, src/main.rs lines 118 to 138); none is an unreadable
directory. -/
inductive BinPath where
  | Disabled
  | Enabled (roots : List (Option (List (Except Unit FsTree)))) (replace : Bool)
      (recursive : Bool) (group : Int)

/-- Modelled from the spec: the slice of dmm::config::Config read by the
entry-resolution and selection pipeline. -/
structure Config where
  entries : List Entry
  shell : Shell
  custom : Custom
  numbered : Numbered
  path : BinPath

/-- Lexicographic comparison of char lists; the embedding of Ord::cmp on Rust
strings (code point order and UTF-8 byte order agree). -/
def cmp_chars : List Char → List Char → Ordering
  | [], [] => .eq
  | [], _ :: _ => .lt
  | _ :: _, [] => .gt
  | a :: as, b :: bs => if a < b then .lt else if b < a then .gt else cmp_chars as bs

/-- The embedding of str::to_ascii_lowercase, src/main.rs lines 226 to 228;
Char.toLower only lowers the basic latin letters, as the Rust function does. -/
def to_ascii_lowercase (s : String) : String :=
  ⟨s.data.map Char.toLower⟩

/-- Comparison of the sort groups, an Int total order. -/
def cmp_int (a b : Int) : Ordering :=
  if a < b then .lt else if a = b then .eq else .gt

/-- The comparator of src/main.rs lines 223 to 233: group descending, then
case-insensitive name ascending, then case-sensitive name ascending. -/
def entry_cmp (l r : RunEntry) : Ordering :=
  ((cmp_int l.group r.group).swap).then
    (((cmp_chars (to_ascii_lowercase l.name).data (to_ascii_lowercase r.name).data)).then
      (cmp_chars l.name.data r.name.data))

/-- The non-strict order induced by entry_cmp; sort_unstable_by places l
before r exactly when the comparator does not answer Greater. -/
def entry_le (l r : RunEntry) : Prop :=
  entry_cmp l r ≠ Ordering.gt

instance decEntryLe : DecidableRel entry_le := fun l r =>
  if h : entry_cmp l r = Ordering.gt then
    Decidable.isFalse (fun hn => hn h)
  else
    Decidable.isTrue h

/-- The sort of src/main.rs line 223; sort_unstable_by gives some order
consistent with the comparator and insertion sort is one such order. -/
def sort_entries (es : List RunEntry) : List RunEntry :=
  List.insertionSort entry_le es

/-- Modelled from the spec: the decimal tag encoder of dmm::tag, writing the
index as its decimal digit string. -/
def Decimal.push_tag (i : Nat) : String :=
  toString i

/-- Modelled from the spec: the maximal leading digit run of a line, parsed as
an unsigned integer; none when the line does not start with a digit. -/
def leading_number (s : String) : Option Nat :=
  let ds := s.data.takeWhile Char.isDigit
  if ds.isEmpty then none else
    some (ds.foldl (fun n c => n * 10 + (c.toNat - 48)) 0)

/-- Modelled from the spec: the decimal tag decoder of dmm::tag, checked
against the resolved entry list of length n. A line decodes to a tag exactly
when its maximal leading digit run parses to an index below n; any other line
is ad-hoc, and no input is an error. -/
def Decimal.pop_tag (n : Nat) (s : String) : Option Nat :=
  match leading_number s with
  | some v => if v < n then some v else none
  | none => none

/-- One iteration step of the walk_dir loop body, src/main.rs lines 243 to
267, for a successfully read directory item: a file_type error aborts; a
directory, or a followed symlink whose metadata says directory, is pushed for
recursion; a broken symlink (metadata error) counts one warning and is treated
as not a directory; otherwise an executable file is recorded as a path-name
pair. -/
def walk_one (t : FsTree) : Except Unit (Option FsTree × Option (Option ImStr × ImStr) × Nat) :=
  match t with
  | .node path name ft fm ex _ =>
    match ft with
    | .error _ => .error ()
    | .ok true => .ok (some t, none, 0)
    | .ok false =>
      match fm with
      | .ok true => .ok (some t, none, 0)
      | .ok false => if ex then .ok (none, some (path, name), 0) else .ok (none, none, 0)
      | .error _ => if ex then .ok (none, some (path, name), 1) else .ok (none, none, 1)

/-- walk_dir, src/main.rs lines 238 to 270: fold walk_one over one directory
listing, collecting directories to recurse into, executable files, and broken
symlink warnings; an unreadable directory item or a file_type error aborts the
whole walk. -/
def walk_dir : List (Except Unit FsTree) → Except Unit (List FsTree × List (Option ImStr × ImStr) × Nat)
  | [] => .ok ([], [], 0)
  | .error _ :: _ => .error ()
  | .ok t :: rest =>
    match walk_one t with
    | .error _ => .error ()
    | .ok (d, f, w) =>
      match walk_dir rest with
      | .error _ => .error ()
      | .ok (rs, fs, ws) => .ok (d.toList ++ rs, f.toList ++ fs, w + ws)

mutual

/-- Size of one tree, used as the termination measure of the recursive walk. -/
def tree_size : FsTree → Nat
  | .node _ _ _ _ _ c => 1 + children_size c

/-- Size of a read_dir outcome. -/
def children_size : Option (List (Except Unit FsTree)) → Nat
  | none => 0
  | some l => listing_size l

/-- Size of a directory listing. -/
def listing_size : List (Except Unit FsTree) → Nat
  | [] => 0
  | .error _ :: rest => listing_size rest
  | .ok t :: rest => tree_size t + listing_size rest

end

/-- The recursive traversal loop of src/main.rs lines 153 to 164. The list is
the work stack with its top first; popping a directory whose read_dir fails
continues silently, otherwise the directory is walked and the directories it
contains are pushed on top of the stack. -/
def walk_loop : List FsTree → Except Unit (List (Option ImStr × ImStr) × Nat)
  | [] => .ok ([], 0)
  | t :: rest =>
    match hc : t.children with
    | none => walk_loop rest
    | some listing =>
      match hw : walk_dir listing with
      | .error _ => .error ()
      | .ok (rs, fs, ws) =>
        match walk_loop (rs.reverse ++ rest) with
        | .error _ => .error ()
        | .ok (fs2, ws2) => .ok (fs ++ fs2, ws + ws2)
termination_by l => (l.map tree_size).sum
decreasing_by
  · cases t with
    | node p n ft fm ex c =>
      simp only [List.map_cons, List.sum_cons, tree_size]
      omega
  · have key : ∀ (l : List (Except Unit FsTree)) rs fs ws, walk_dir l = .ok (rs, fs, ws) →
        (rs.map tree_size).sum ≤ listing_size l := by
      intro l
      induction l with
      | nil =>
        intro rs fs ws h
        simp only [walk_dir] at h
        cases h
        simp
      | cons e rest2 ih =>
        intro rs fs ws h
        cases e with
        | error u => exact Except.noConfusion h
        | ok t2 =>
          simp only [walk_dir] at h
          cases h1 : walk_one t2 with
          | error u => rw [h1] at h; exact Except.noConfusion h
          | ok dfw =>
            obtain ⟨d, f, w⟩ := dfw
            rw [h1] at h
            cases h2 : walk_dir rest2 with
            | error u => rw [h2] at h; exact Except.noConfusion h
            | ok rfw =>
              obtain ⟨rs2, fs2, ws2⟩ := rfw
              rw [h2] at h
              have hd : d = none ∨ d = some t2 := by
                unfold walk_one at h1
                cases t2 with
                | node p n ft fm ex c =>
                  cases ft with
                  | error u => exact Except.noConfusion h1
                  | ok is_dir =>
                    cases is_dir with
                    | true =>
                      simp only [Except.ok.injEq, Prod.mk.injEq] at h1
                      exact Or.inr h1.1.symm
                    | false =>
                      cases fm with
                      | ok md =>
                        cases md with
                        | true =>
                          simp only [Except.ok.injEq, Prod.mk.injEq] at h1
                          exact Or.inr h1.1.symm
                        | false =>
                          simp only at h1
                          split at h1 <;>
                            simp only [Except.ok.injEq, Prod.mk.injEq] at h1 <;>
                            exact Or.inl h1.1.symm
                      | error u =>
                        simp only at h1
                        split at h1 <;>
                          simp only [Except.ok.injEq, Prod.mk.injEq] at h1 <;>
                          exact Or.inl h1.1.symm
              have hle := ih rs2 fs2 ws2 h2
              cases h
              cases hd with
              | inl hn =>
                subst hn
                simp only [Option.toList, List.nil_append, listing_size]
                omega
              | inr hs =>
                subst hs
                simp only [Option.toList, List.map_append, List.sum_append, List.map_cons,
                  List.sum_cons, List.map_nil, List.sum_nil, listing_size]
                omega
    have hb := key listing rs fs ws hw
    cases t with
    | node p n ft fm ex c =>
      simp only [FsTree.children] at *
      subst hc
      simp only [List.map_append, List.sum_append, List.map_reverse, List.sum_reverse,
        List.map_cons, List.sum_cons, tree_size, children_size]
      omega

/-- The per-search-directory discovery of src/main.rs lines 140 to 167: an
unreadable search directory yields nothing (filtered out silently); otherwise
its listing is walked and, when recursion is on, the collected directories are
traversed by walk_loop starting from the top of the stack; any walk error is
kept to abort the caller. -/
def path_bins_one (recursive : Bool) (root : Option (List (Except Unit FsTree))) :
    Option (Except Unit (List (Option ImStr × ImStr) × Nat)) :=
  match root with
  | none => none
  | some listing =>
    match walk_dir listing with
    | .error _ => some (.error ())
    | .ok (recur, files, ws) =>
      if recursive then
        match walk_loop recur.reverse with
        | .error _ => some (.error ())
        | .ok (fs2, ws2) => some (.ok (files ++ fs2, ws + ws2))
      else
        some (.ok (files, ws))

/-- Association list standing for the ahash HashMap of configured entries,
src/main.rs lines 107 to 116; insertion with a duplicate key overwrites the
stored value, as HashMap collect does. -/
def map_insert (m : List (ImStr × Option RunEntry)) (k : ImStr) (v : Option RunEntry) :
    List (ImStr × Option RunEntry) :=
  match m with
  | [] => [(k, v)]
  | (k0, v0) :: rest => if k0 = k then (k0, v) :: rest else (k0, v0) :: map_insert rest k v

/-- HashMap::contains_key on the association list. -/
def map_contains (m : List (ImStr × Option RunEntry)) (k : ImStr) : Bool :=
  match m with
  | [] => false
  | (k0, _) :: rest => if k0 = k then true else map_contains rest k

/-- Option::take through HashMap::get_mut, src/main.rs lines 190 to 192: the
stored value is replaced by none and the old value is returned. -/
def map_take (m : List (ImStr × Option RunEntry)) (k : ImStr) :
    Option RunEntry × List (ImStr × Option RunEntry) :=
  match m with
  | [] => (none, [])
  | (k0, v0) :: rest =>
    if k0 = k then (v0, (k0, none) :: rest)
    else
      let r := map_take rest k
      (r.1, (k0, v0) :: r.2)

/-- The HashMap built from the configured entries, src/main.rs lines 107 to
116: each entry is keyed by its name and mapped to its RunEntry conversion. -/
def menu_map (entries : List Entry) (shell_is_enabled : Bool) :
    List (ImStr × Option RunEntry) :=
  entries.foldl (fun m e => map_insert m e.name (RunEntry.try_from e shell_is_enabled)) []

/-- The merge loop over the discovered executables of one search directory,
src/main.rs lines 173 to 207. A non-unicode path counts one warning and is
skipped. A discovered name present in the configured map is dropped when
replace is off; when replace is on and the stored entry is still present it is
taken out and re-emitted with the discovered path as a bare action, keeping
the configured group. A name absent from the map becomes a new entry with the
discovery group. -/
def merge_bins (replace : Bool) (group : Int) (menu : List (ImStr × Option RunEntry)) :
    List (Option ImStr × ImStr) → List (ImStr × Option RunEntry) × List RunEntry × Nat
  | [] => (menu, [], 0)
  | (p, name) :: rest =>
    match p with
    | none =>
      let r := merge_bins replace group menu rest
      (r.1, r.2.1, r.2.2 + 1)
    | some path =>
      if map_contains menu name then
        if replace then
          let t := map_take menu name
          match t.1 with
          | some run_entry =>
            let r := merge_bins replace group t.2 rest
            (r.1, RunEntry.mk name (Run.binary path) run_entry.group :: r.2.1, r.2.2)
          | none => merge_bins replace group t.2 rest
        else
          merge_bins replace group menu rest
      else
        let r := merge_bins replace group menu rest
        (r.1, RunEntry.mk name (Run.binary path) group :: r.2.1, r.2.2)

/-- The loop over search directories of src/main.rs lines 169 to 210: an
error from any walk aborts build_entries; otherwise each directory merges its
executables against the shared configured map and appends its new entries. -/
def roots_loop (replace : Bool) (group : Int) :
    List (ImStr × Option RunEntry) → List RunEntry → Nat →
    List (Except Unit (List (Option ImStr × ImStr) × Nat)) →
    Except Unit (List (ImStr × Option RunEntry) × List RunEntry × Nat)
  | menu, acc, ws, [] => .ok (menu, acc, ws)
  | _, _, _, .error _ :: _ => .error ()
  | menu, acc, ws, .ok (bins, w0) :: rest =>
    let r := merge_bins replace group menu bins
    roots_loop replace group r.1 (acc ++ r.2.1) (ws + w0 + r.2.2) rest

/-- build_entries, src/main.rs lines 97 to 236. With discovery enabled the
configured entries become a map keyed by name, every readable search directory
is walked (a walk error aborts with the fatal error of line 170), discovered
executables are merged, leftover configured entries are appended, and the
result is sorted; with discovery disabled the configured entries are converted
and sorted directly. The second component counts warnings. The conversion flag
mirrors line 113 and line 219 verbatim: the negation of shell is_enabled is
passed for the parameter named shell_is_enabled. -/
def build_entries (config : Config) : Except Unit (List RunEntry × Nat) :=
  match config.path with
  | BinPath.Enabled roots replace recursive group =>
    match roots_loop replace group (menu_map config.entries (!config.shell.is_enabled)) [] 0
        (roots.filterMap (path_bins_one recursive)) with
    | .error _ => .error ()
    | .ok (menu, acc, ws) =>
      .ok (sort_entries (acc ++ menu.filterMap (fun p => p.2)), ws)
  | BinPath.Disabled =>
    .ok (sort_entries
      (config.entries.filterMap (fun e => RunEntry.try_from e (!config.shell.is_enabled))), 0)

/-- display_entries, src/main.rs lines 272 to 291, with the codec abstracted
as the string its push_tag appends for a given index. Numbered: tag, then
separator, then name, then newline; otherwise: name, then tag, then newline. -/
def display_entries (config : Config) (push_tag : Nat → String) (entries : List RunEntry) :
    String :=
  if config.numbered.is_enabled then
    (entries.enum).foldl
      (fun d ie => d ++ push_tag ie.1 ++ config.numbered.separator ++ ie.2.name ++ "\n") ""
  else
    (entries.enum).foldl (fun d ie => d ++ ie.2.name ++ push_tag ie.1 ++ "\n") ""

/-- The per-line selection resolution of src/main.rs lines 69 to 92, with the
codec abstracted as a decode function. A decoded line is replaced by the run
action of the indexed entry, looked up by Vec::get; the expect of line 74
turns a failed lookup into none (a panic). An undecoded line becomes a literal
shell action when ad-hoc commands are enabled and otherwise counts one warning
and contributes nothing. -/
def resolve_lines (decode : String → Option Nat) (entries : List RunEntry) (custom : Custom) :
    List String → Option (List Run × Nat)
  | [] => some ([], 0)
  | choice :: rest =>
    match decode choice with
    | some id =>
      match entries.get? id with
      | some entry =>
        (resolve_lines decode entries custom rest).map (fun p => (entry.run :: p.1, p.2))
      | none => none
    | none =>
      match custom with
      | .Enabled =>
        (resolve_lines decode entries custom rest).map
          (fun p => (Run.Shell choice :: p.1, p.2))
      | .Disabled =>
        (resolve_lines decode entries custom rest).map (fun p => (p.1, p.2 + 1))

/-- The pure core of get_selection, src/main.rs lines 61 to 95, from the raw
selector output onward: split the raw text on newlines, drop the lines that
are blank after trimming, and resolve each remaining line. -/
def get_selection_core (decode : String → Option Nat) (entries : List RunEntry)
    (custom : Custom) (raw : String) : Option (List Run × Nat) :=
  resolve_lines decode entries custom
    ((raw.splitOn "\n").filter (fun choice => !choice.trim.isEmpty))

/-- One spawn attempt recorded by the dispatcher. -/
inductive SpawnEvent where
  | bare (prog : ImStr) (args : List ImStr)
  | shell_piped (prog : ImStr) (args : List ImStr) (input : ImStr)
  | shell_args (prog : ImStr) (args : List ImStr) (cmd : ImStr)
deriving DecidableEq, Repr

/-- Dispatch of a single command, src/main.rs lines 334 to 407. spawn_ok
tells whether spawning a given program succeeds. A bare action with an empty
vector is a no-op; a failed bare spawn is one warning. An empty shell string is
a no-op; with shell disabled a shell action is one warning; in piped mode a
failed shell spawn is a fatal error (the question mark of line 379); in
argument mode it is one warning. -/
def step_one (spawn_ok : ImStr → Bool) (config : Config) (command : Run) :
    Except Unit (List SpawnEvent × Nat) :=
  match command with
  | .Bare run =>
    match run with
    | [] => .ok ([], 0)
    | bin :: args =>
      if spawn_ok bin then .ok ([.bare bin args], 0) else .ok ([.bare bin args], 1)
  | .Shell run =>
    if run.isEmpty then .ok ([], 0)
    else
      match config.shell with
      | .Disabled => .ok ([], 1)
      | .Enabled shellv piped =>
        match shellv with
        | [] => .ok ([], 0)
        | shell_name :: args =>
          if piped then
            if spawn_ok shell_name then .ok ([.shell_piped shell_name args run], 0)
            else .error ()
          else
            if spawn_ok shell_name then .ok ([.shell_args shell_name args run], 0)
            else .ok ([.shell_args shell_name args run], 1)

/-- run_commands, src/main.rs lines 332 to 411: dispatch each command in
order; a fatal step aborts the whole batch, any other step contributes its
spawn attempts and warnings and processing continues. -/
def run_commands (spawn_ok : ImStr → Bool) (config : Config) :
    List Run → Except Unit (List SpawnEvent × Nat)
  | [] => .ok ([], 0)
  | command :: rest =>
    match step_one spawn_ok config command with
    | .error _ => .error ()
    | .ok (evs, w) =>
      match run_commands spawn_ok config rest with
      | .error _ => .error ()
      | .ok (evs2, w2) => .ok (evs ++ evs2, w + w2)

/-! Order facts about the sort comparator. -/

theorem cmp_int_eq_lt {a b : Int} : cmp_int a b = .lt ↔ a < b := by
  unfold cmp_int
  by_cases h1 : a < b
  · rw [if_pos h1]
    simp [h1]
  · rw [if_neg h1]
    by_cases h2 : a = b
    · rw [if_pos h2]
      simp [h1]
    · rw [if_neg h2]
      simp [h1]

theorem cmp_int_eq_eq {a b : Int} : cmp_int a b = .eq ↔ a = b := by
  unfold cmp_int
  by_cases h1 : a < b
  · rw [if_pos h1]
    simp only [reduceCtorEq, false_iff]
    omega
  · rw [if_neg h1]
    by_cases h2 : a = b
    · rw [if_pos h2]
      simp [h2]
    · rw [if_neg h2]
      simp only [reduceCtorEq, false_iff]
      exact h2

theorem cmp_int_swap (a b : Int) : (cmp_int a b).swap = cmp_int b a := by
  unfold cmp_int
  rcases lt_trichotomy a b with h | h | h
  · rw [if_pos h, if_neg (asymm h), if_neg (by omega)]
    rfl
  · subst h
    rw [if_neg (lt_irrefl a), if_pos rfl]
    rfl
  · rw [if_neg (asymm h), if_neg (by omega), if_pos h]
    rfl

theorem cmp_chars_swap (a : List Char) : ∀ b, (cmp_chars a b).swap = cmp_chars b a := by
  induction a with
  | nil => intro b; cases b <;> rfl
  | cons x xs ih =>
    intro b
    cases b with
    | nil => rfl
    | cons y ys =>
      simp only [cmp_chars]
      rcases lt_trichotomy x y with h | h | h
      · rw [if_pos h, if_neg (asymm h), if_pos h]
        rfl
      · subst h
        simp only [lt_irrefl, if_false]
        exact ih ys
      · rw [if_neg (asymm h), if_pos h, if_pos h]
        rfl

theorem cmp_chars_eq (a : List Char) : ∀ b, cmp_chars a b = .eq ↔ a = b := by
  induction a with
  | nil =>
    intro b
    cases b <;> simp [cmp_chars]
  | cons x xs ih =>
    intro b
    cases b with
    | nil => simp [cmp_chars]
    | cons y ys =>
      simp only [cmp_chars]
      rcases lt_trichotomy x y with h | h | h
      · rw [if_pos h]
        simp only [reduceCtorEq, List.cons.injEq, false_iff, not_and]
        intro he
        exact absurd he (ne_of_lt h)
      · subst h
        simp only [lt_irrefl, if_false, List.cons.injEq, true_and]
        exact ih ys
      · rw [if_neg (asymm h), if_pos h]
        simp only [reduceCtorEq, List.cons.injEq, false_iff, not_and]
        intro he
        exact absurd he.symm (ne_of_lt h)

theorem cmp_chars_lt_trans (a : List Char) :
    ∀ b c, cmp_chars a b = .lt → cmp_chars b c = .lt → cmp_chars a c = .lt := by
  induction a with
  | nil =>
    intro b c h1 h2
    cases b with
    | nil => exact absurd h1 (by simp [cmp_chars])
    | cons y ys =>
      cases c with
      | nil => exact absurd h2 (by simp [cmp_chars])
      | cons z zs => rfl
  | cons x xs ih =>
    intro b c h1 h2
    cases b with
    | nil => exact absurd h1 (by simp [cmp_chars])
    | cons y ys =>
      cases c with
      | nil => exact absurd h2 (by simp [cmp_chars])
      | cons z zs =>
        simp only [cmp_chars] at h1 h2 ⊢
        rcases lt_trichotomy x y with hxy | hxy | hxy
        · rcases lt_trichotomy y z with hyz | hyz | hyz
          · rw [if_pos (lt_trans hxy hyz)]
          · subst hyz
            rw [if_pos hxy]
          · rw [if_neg (asymm hyz), if_pos hyz] at h2
            exact absurd h2 (by simp)
        · subst hxy
          rcases lt_trichotomy x z with hxz | hxz | hxz
          · rw [if_pos hxz]
          · subst hxz
            simp only [lt_irrefl, if_false] at h1 h2 ⊢
            exact ih _ _ h1 h2
          · rw [if_neg (asymm hxz), if_pos hxz] at h2
            exact absurd h2 (by simp)
        · rw [if_neg (asymm hxy), if_pos hxy] at h1
          exact absurd h1 (by simp)

theorem entry_cmp_def (l r : RunEntry) :
    entry_cmp l r =
      (cmp_int r.group l.group).then
        ((cmp_chars (to_ascii_lowercase l.name).data (to_ascii_lowercase r.name).data).then
          (cmp_chars l.name.data r.name.data)) := by
  unfold entry_cmp
  rw [cmp_int_swap]

theorem entry_cmp_swap (a b : RunEntry) : (entry_cmp a b).swap = entry_cmp b a := by
  rw [entry_cmp_def, entry_cmp_def, Ordering.swap_then, Ordering.swap_then,
    cmp_int_swap, cmp_chars_swap, cmp_chars_swap]

theorem entry_cmp_congr {a b : RunEntry} (h : entry_cmp a b = .eq) :
    ∀ d, entry_cmp a d = entry_cmp b d := by
  intro d
  rw [entry_cmp_def] at h
  rw [Ordering.then_eq_eq, Ordering.then_eq_eq] at h
  obtain ⟨hg, hl, hn⟩ := h
  rw [cmp_int_eq_eq] at hg
  rw [cmp_chars_eq] at hl hn
  rw [entry_cmp_def, entry_cmp_def, hg, hl, hn]

theorem entry_cmp_lt_trans {a b d : RunEntry} (h1 : entry_cmp a b = .lt)
    (h2 : entry_cmp b d = .lt) : entry_cmp a d = .lt := by
  rw [entry_cmp_def, Ordering.then_eq_lt] at h1 h2 ⊢
  rcases h1 with h1 | ⟨h1, h1i⟩
  · rcases h2 with h2 | ⟨h2, h2i⟩
    · rw [cmp_int_eq_lt] at h1 h2
      exact Or.inl (cmp_int_eq_lt.2 (lt_trans h2 h1))
    · rw [cmp_int_eq_eq] at h2
      rw [← h2] at h1
      exact Or.inl h1
  · rcases h2 with h2 | ⟨h2, h2i⟩
    · rw [cmp_int_eq_eq] at h1
      rw [h1] at h2
      exact Or.inl h2
    · rw [cmp_int_eq_eq] at h1 h2
      refine Or.inr ⟨cmp_int_eq_eq.2 (h2.trans h1), ?_⟩
      rw [Ordering.then_eq_lt] at h1i h2i ⊢
      rcases h1i with h1i | ⟨h1i, h1n⟩
      · rcases h2i with h2i | ⟨h2i, h2n⟩
        · exact Or.inl (cmp_chars_lt_trans _ _ _ h1i h2i)
        · rw [cmp_chars_eq] at h2i
          rw [h2i] at h1i
          exact Or.inl h1i
      · rcases h2i with h2i | ⟨h2i, h2n⟩
        · rw [cmp_chars_eq] at h1i
          rw [h1i]
          exact Or.inl h2i
        · rw [cmp_chars_eq] at h1i h2i
          refine Or.inr ⟨(cmp_chars_eq _ _).2 (h1i.trans h2i), ?_⟩
          exact cmp_chars_lt_trans _ _ _ h1n h2n

instance entryLeTotal : IsTotal RunEntry entry_le := by
  constructor
  intro a b
  unfold entry_le
  cases h : entry_cmp a b with
  | lt => exact Or.inl (by simp [h])
  | eq => exact Or.inl (by simp [h])
  | gt =>
    refine Or.inr ?_
    have hs := entry_cmp_swap a b
    rw [h] at hs
    rw [← hs]
    decide

instance entryLeTrans : IsTrans RunEntry entry_le := by
  constructor
  intro a b d h1 h2
  unfold entry_le at h1 h2 ⊢
  have h1' : entry_cmp a b = .lt ∨ entry_cmp a b = .eq := by
    cases h : entry_cmp a b
    · exact Or.inl rfl
    · exact Or.inr rfl
    · exact absurd h h1
  have h2' : entry_cmp b d = .lt ∨ entry_cmp b d = .eq := by
    cases h : entry_cmp b d
    · exact Or.inl rfl
    · exact Or.inr rfl
    · exact absurd h h2
  rcases h1' with h1' | h1'
  · rcases h2' with h2' | h2'
    · rw [entry_cmp_lt_trans h1' h2']
      simp
    · intro hgt
      have h3 : entry_cmp d a = Ordering.lt := by
        rw [← entry_cmp_swap a d, hgt]
        rfl
      have h4 : entry_cmp b a = entry_cmp d a := entry_cmp_congr h2' a
      have h5 : entry_cmp b a = Ordering.gt := by
        rw [← entry_cmp_swap a b, h1']
        rfl
      rw [h4, h3] at h5
      exact Ordering.noConfusion h5
  · rw [entry_cmp_congr h1' d]
    exact h2

theorem sort_entries_sorted (es : List RunEntry) : List.Sorted entry_le (sort_entries es) :=
  List.sorted_insertionSort entry_le es

theorem sort_entries_perm (es : List RunEntry) : (sort_entries es).Perm es :=
  List.perm_insertionSort entry_le es

/-! Facts about the decimal decode and the selection resolver. -/

theorem pop_tag_lt {n : Nat} {s : String} {i : Nat} (h : Decimal.pop_tag n s = some i) :
    i < n := by
  cases hl : leading_number s with
  | none =>
    simp only [Decimal.pop_tag, hl] at h
    exact Option.noConfusion h
  | some v =>
    simp only [Decimal.pop_tag, hl] at h
    by_cases hv : v < n
    · rw [if_pos hv] at h
      cases h
      exact hv
    · rw [if_neg hv] at h
      exact Option.noConfusion h

theorem pop_tag_iff {s : String} {v : Nat} (h : leading_number s = some v) (n : Nat) :
    v < n ↔ Decimal.pop_tag n s = some v := by
  simp only [Decimal.pop_tag, h]
  constructor
  · intro hv
    rw [if_pos hv]
  · intro hp
    by_cases hv : v < n
    · exact hv
    · rw [if_neg hv] at hp
      exact Option.noConfusion hp

theorem resolve_lines_pop_isSome (entries : List RunEntry) (custom : Custom)
    (lines : List String) :
    (resolve_lines (Decimal.pop_tag entries.length) entries custom lines).isSome = true := by
  induction lines with
  | nil => rfl
  | cons choice rest ih =>
    simp only [resolve_lines]
    cases hd : Decimal.pop_tag entries.length choice with
    | some i =>
      have hi : i < entries.length := pop_tag_lt hd
      cases hg : entries.get? i with
      | none =>
        rw [List.get?_eq_none] at hg
        omega
      | some entry =>
        obtain ⟨p, hp⟩ := Option.isSome_iff_exists.1 ih
        simp only [hg, hp]
        rfl
    | none =>
      cases custom with
      | Enabled =>
        obtain ⟨p, hp⟩ := Option.isSome_iff_exists.1 ih
        rw [hp]
        rfl
      | Disabled =>
        obtain ⟨p, hp⟩ := Option.isSome_iff_exists.1 ih
        rw [hp]
        rfl

/-- C1: for every non-blank line of the selector output, a line the codec
decodes to an in-range index queues exactly the run action of that entry (the
literal line text is discarded); an undecoded line with ad-hoc enabled queues
exactly one shell command equal to the literal line; an undecoded line with
ad-hoc disabled queues nothing, counts one warning, and the remaining lines
are still processed with the operation still succeeding. -/
theorem claim1_selection_per_line (decode : String → Option Nat) (entries : List RunEntry)
    (custom : Custom) (choice : String) (rest : List String) :
    (∀ raw, get_selection_core decode entries custom raw =
        resolve_lines decode entries custom
          ((raw.splitOn "\n").filter (fun c => !c.trim.isEmpty)))
    ∧ (∀ i entry, decode choice = some i → entries.get? i = some entry →
        resolve_lines decode entries custom (choice :: rest) =
          (resolve_lines decode entries custom rest).map
            (fun p => (entry.run :: p.1, p.2)))
    ∧ (decode choice = none → custom = Custom.Enabled →
        resolve_lines decode entries custom (choice :: rest) =
          (resolve_lines decode entries custom rest).map
            (fun p => (Run.Shell choice :: p.1, p.2)))
    ∧ (decode choice = none → custom = Custom.Disabled →
        resolve_lines decode entries custom (choice :: rest) =
          (resolve_lines decode entries custom rest).map (fun p => (p.1, p.2 + 1))
        ∧ ((resolve_lines decode entries custom rest).isSome = true →
            (resolve_lines decode entries custom (choice :: rest)).isSome = true)) := by
  refine ⟨fun raw => rfl, ?_, ?_, ?_⟩
  · intro i entry hd hg
    simp only [resolve_lines, hd, hg]
  · intro hd hc
    subst hc
    simp only [resolve_lines, hd]
  · intro hd hc
    subst hc
    refine ⟨by simp only [resolve_lines, hd], ?_⟩
    intro hs
    obtain ⟨p, hp⟩ := Option.isSome_iff_exists.1 hs
    simp only [resolve_lines, hd, hp]
    rfl

theorem claim1_selection_per_line_witness :
    resolve_lines (Decimal.pop_tag 1) [⟨"alpha", Run.Shell ("echo alpha"), 0⟩]
        Custom.Enabled ["0:alpha"] = some ([Run.Shell ("echo alpha")], 0)
    ∧ resolve_lines (Decimal.pop_tag 1) [⟨"alpha", Run.Shell ("echo alpha"), 0⟩]
        Custom.Enabled ["ls -la"] = some ([Run.Shell ("ls -la")], 0)
    ∧ resolve_lines (Decimal.pop_tag 1) [⟨"alpha", Run.Shell ("echo alpha"), 0⟩]
        Custom.Disabled ["ls -la"] = some ([], 1) := by
  refine ⟨?_, ?_, ?_⟩
  · rw [(claim1_selection_per_line (Decimal.pop_tag 1)
        [⟨"alpha", Run.Shell ("echo alpha"), 0⟩] Custom.Enabled ("0:alpha") []).2.1
        0 ⟨"alpha", Run.Shell ("echo alpha"), 0⟩ rfl rfl]
    rfl
  · rw [(claim1_selection_per_line (Decimal.pop_tag 1)
        [⟨"alpha", Run.Shell ("echo alpha"), 0⟩] Custom.Enabled ("ls -la") []).2.2.1
        rfl rfl]
    rfl
  · rw [((claim1_selection_per_line (Decimal.pop_tag 1)
        [⟨"alpha", Run.Shell ("echo alpha"), 0⟩] Custom.Disabled ("ls -la") []).2.2.2
        rfl rfl).1]
    rfl

/-- C2: the decimal decode never yields an out-of-range index, a digit-leading
line decodes to its parsed value exactly when that value is in range (and
falls through to the ad-hoc path otherwise), and resolving any line list with
the decode checked against the entry list never fails, so the entry lookup of
a decoded index cannot panic. -/
theorem claim2_decode_in_range :
    (∀ (n : Nat) (s : String) (i : Nat), Decimal.pop_tag n s = some i → i < n)
    ∧ (∀ (s : String) (v : Nat), leading_number s = some v →
        ∀ n : Nat, (v < n ↔ Decimal.pop_tag n s = some v))
    ∧ (∀ (entries : List RunEntry) (custom : Custom) (lines : List String),
        (resolve_lines (Decimal.pop_tag entries.length) entries custom lines).isSome = true) :=
  ⟨fun _ _ _ h => pop_tag_lt h, fun _ _ h n => pop_tag_iff h n, resolve_lines_pop_isSome⟩

theorem claim2_decode_in_range_witness :
    (42 < 43)
    ∧ (42 < 43 ↔ Decimal.pop_tag 43 ("42 is great") = some 42)
    ∧ Decimal.pop_tag 10 ("42 is great") = none
    ∧ (resolve_lines (Decimal.pop_tag 1) [⟨"alpha", Run.Bare ["alpha"], 0⟩]
        Custom.Disabled ["42 is great"]).isSome = true :=
  ⟨claim2_decode_in_range.1 43 ("42 is great") 42 rfl,
   claim2_decode_in_range.2.1 ("42 is great") 42 rfl 43,
   rfl,
   claim2_decode_in_range.2.2 [⟨"alpha", Run.Bare ["alpha"], 0⟩] Custom.Disabled ["42 is great"]⟩

/-- C3: the claim says a name-only entry defaults to a shell action when shell
execution is enabled and to a bare action when it is disabled, matching the
parameter name shell_is_enabled of RunEntry::try_from; but the call sites at
src/main.rs lines 113 and 219 pass the negation of config.shell.is_enabled,
so the code produces a bare action when the shell is enabled and a dead shell
action when it is disabled. This theorem evaluates the code at both failing
inputs. -/
theorem claim3_name_default_inverted :
    build_entries
        { entries := [Entry.Name ("x")], shell := Shell.Enabled ["sh"] false,
          custom := Custom.Disabled, numbered := Numbered.Enabled (":"),
          path := BinPath.Disabled } =
      .ok ([⟨"x", Run.Bare ["x"], 0⟩], 0)
    ∧ build_entries
        { entries := [Entry.Name ("x")], shell := Shell.Disabled,
          custom := Custom.Disabled, numbered := Numbered.Enabled (":"),
          path := BinPath.Disabled } =
      .ok ([⟨"x", Run.Shell ("x"), 0⟩], 0) :=
  ⟨rfl, rfl⟩

/-- C5: every resolved entry list produced by build_entries is sorted by the
comparator of src/main.rs line 223 (group descending, then case-insensitive
name ascending, then case-sensitive name as tie-break), and the example
entries b(0), A(0), a(1) resolve to the order a, A, b. -/
theorem claim5_sort_order :
    (∀ (config : Config) (es : List RunEntry) (ws : Nat),
        build_entries config = .ok (es, ws) → List.Sorted entry_le es)
    ∧ build_entries
        { entries := [Entry.Full ("b") (Run.binary ("b")) 0,
                      Entry.Full ("A") (Run.binary ("A")) 0,
                      Entry.Full ("a") (Run.binary ("a")) 1],
          shell := Shell.Disabled, custom := Custom.Disabled,
          numbered := Numbered.Enabled (":"), path := BinPath.Disabled } =
      .ok ([⟨"a", Run.Bare ["a"], 1⟩, ⟨"A", Run.Bare ["A"], 0⟩,
            ⟨"b", Run.Bare ["b"], 0⟩], 0) := by
  constructor
  · intro config es ws h
    unfold build_entries at h
    split at h
    · split at h
      · exact Except.noConfusion h
      · simp only [Except.ok.injEq, Prod.mk.injEq] at h
        rw [← h.1]
        exact sort_entries_sorted _
    · simp only [Except.ok.injEq, Prod.mk.injEq] at h
      rw [← h.1]
      exact sort_entries_sorted _
  · rfl

theorem claim5_sort_order_witness :
    List.Sorted entry_le
      [⟨"a", Run.Bare ["a"], 1⟩, ⟨"A", Run.Bare ["A"], 0⟩, ⟨"b", Run.Bare ["b"], 0⟩] :=
  claim5_sort_order.1 _ _ _ claim5_sort_order.2

/-- C9 counterexample: with discovery enabled (even with no search paths) two
configured entries sharing the name a are collapsed by the HashMap keyed on
names, so the resolved list has one entry, not one per configured entry as the
claim states. -/
theorem claim9_duplicates_counterexample :
    build_entries
        { entries := [Entry.Name ("a"), Entry.Name ("a")], shell := Shell.Disabled,
          custom := Custom.Disabled, numbered := Numbered.Enabled (":"),
          path := BinPath.Enabled [] true false 0 } =
      .ok ([⟨"a", Run.Shell ("a"), 0⟩], 0)
    ∧ [RunEntry.mk ("a") (Run.Shell ("a")) 0].length ≠ 2 :=
  ⟨rfl, by decide⟩

/-- C9 amended: with discovery disabled every name-declaring configured entry
contributes its own resolved entry, duplicates included; with discovery
enabled the configured entries are first collapsed by name (the map keyed on
names keeps one slot per name), so a duplicated configured name yields one
entry. -/
theorem claim9_duplicates_amended :
    (∀ (es : List Entry) (sh : Shell) (cu : Custom) (nu : Numbered),
        build_entries ⟨es, sh, cu, nu, BinPath.Disabled⟩ =
          .ok (sort_entries (es.filterMap
            (fun e => RunEntry.try_from e (!sh.is_enabled))), 0))
    ∧ (∀ l : List RunEntry, (sort_entries l).length = l.length)
    ∧ (∀ (n : ImStr) (b : Bool) (es : List Entry),
        ((Entry.Name n :: Entry.Name n :: es).filterMap
            (fun e => RunEntry.try_from e b)).length =
          2 + (es.filterMap (fun e => RunEntry.try_from e b)).length)
    ∧ (∀ (n : ImStr) (es : List Entry) (sh : Shell) (cu : Custom) (nu : Numbered)
        (roots : List (Option (List (Except Unit FsTree)))) (replace recursive : Bool)
        (g : Int),
        build_entries ⟨Entry.Name n :: Entry.Name n :: es, sh, cu, nu,
            BinPath.Enabled roots replace recursive g⟩ =
          build_entries ⟨Entry.Name n :: es, sh, cu, nu,
            BinPath.Enabled roots replace recursive g⟩) := by
  refine ⟨fun es sh cu nu => rfl, fun l => List.length_insertionSort _ l, ?_, ?_⟩
  · intro n b es
    simp only [List.filterMap_cons, RunEntry.try_from, List.length_cons]
    omega
  · intro n es sh cu nu roots replace recursive g
    have hm : menu_map (Entry.Name n :: Entry.Name n :: es) (!sh.is_enabled) =
        menu_map (Entry.Name n :: es) (!sh.is_enabled) := by
      simp [menu_map, map_insert]
    simp only [build_entries, hm]

/-- C10: a configured Filter entry is excluded from the resolved list on both
paths: its conversion yields nothing, with discovery disabled it leaves the
result unchanged, and with discovery enabled it produces no resolved entry
even when a discovered executable carries the same name. -/
theorem claim10_filter_never_runnable :
    (∀ (f : ImStr) (b : Bool), RunEntry.try_from (Entry.Filter f) b = none)
    ∧ (∀ (f : ImStr) (es : List Entry) (sh : Shell) (cu : Custom) (nu : Numbered),
        build_entries ⟨Entry.Filter f :: es, sh, cu, nu, BinPath.Disabled⟩ =
          build_entries ⟨es, sh, cu, nu, BinPath.Disabled⟩)
    ∧ (∀ (f dpath : ImStr) (sh : Shell) (cu : Custom) (nu : Numbered) (replace : Bool)
        (g : Int),
        build_entries ⟨[Entry.Filter f], sh, cu, nu,
            BinPath.Enabled [some [Except.ok (FsTree.node (some dpath) f (Except.ok false)
              (Except.ok false) true none)]] replace false g⟩ =
          .ok ([], 0)) := by
  refine ⟨fun f b => rfl, ?_, ?_⟩
  · intro f es sh cu nu
    simp only [build_entries, List.filterMap_cons, RunEntry.try_from]
  · intro f dpath sh cu nu replace g
    simp [build_entries, menu_map, map_insert, roots_loop, path_bins_one, walk_dir, walk_one,
      merge_bins, map_contains, map_take, Entry.name, RunEntry.try_from, sort_entries]

/-- C4: merge precedence for a discovered executable against a configured
entry of the same name: with replace on, the resolved entry keeps the
configured name and group but runs the discovered path as a bare action; with
replace off, the configured entry is kept unchanged and the discovered
duplicate is dropped with the list length unchanged; a discovered name with no
configured counterpart is added with the discovery group. -/
theorem claim4_merge_precedence (cname dname dpath : ImStr) (crun : Run)
    (cgroup dgroup : Int) (sh : Shell) (cu : Custom) (nu : Numbered) :
    (build_entries ⟨[Entry.Full cname crun cgroup], sh, cu, nu,
        BinPath.Enabled [some [Except.ok (FsTree.node (some dpath) cname (Except.ok false)
          (Except.ok false) true none)]] true false dgroup⟩ =
      .ok ([⟨cname, Run.Bare [dpath], cgroup⟩], 0))
    ∧ (build_entries ⟨[Entry.Full cname crun cgroup], sh, cu, nu,
        BinPath.Enabled [some [Except.ok (FsTree.node (some dpath) cname (Except.ok false)
          (Except.ok false) true none)]] false false dgroup⟩ =
      .ok ([⟨cname, crun, cgroup⟩], 0))
    ∧ (∀ replace : Bool, dname ≠ cname →
        build_entries ⟨[Entry.Full cname crun cgroup], sh, cu, nu,
            BinPath.Enabled [some [Except.ok (FsTree.node (some dpath) dname (Except.ok false)
              (Except.ok false) true none)]] replace false dgroup⟩ =
          .ok (sort_entries [⟨dname, Run.Bare [dpath], dgroup⟩, ⟨cname, crun, cgroup⟩], 0)
        ∧ RunEntry.mk dname (Run.Bare [dpath]) dgroup ∈
            sort_entries [⟨dname, Run.Bare [dpath], dgroup⟩, ⟨cname, crun, cgroup⟩]) := by
  refine ⟨?_, ?_, ?_⟩
  · simp [build_entries, menu_map, map_insert, roots_loop, path_bins_one, walk_dir, walk_one,
      merge_bins, map_contains, map_take, Entry.name, RunEntry.try_from, sort_entries,
      Run.binary]
  · simp [build_entries, menu_map, map_insert, roots_loop, path_bins_one, walk_dir, walk_one,
      merge_bins, map_contains, map_take, Entry.name, RunEntry.try_from, sort_entries,
      Run.binary]
  · intro replace h
    constructor
    · simp [build_entries, menu_map, map_insert, roots_loop, path_bins_one, walk_dir,
        walk_one, merge_bins, map_contains, map_take, Entry.name, RunEntry.try_from,
        Run.binary, Ne.symm h]
    · exact (sort_entries_perm _).mem_iff.2 (List.mem_cons_self _ _)

theorem claim4_merge_precedence_witness :
    build_entries ⟨[Entry.Full ("foo") (Run.Shell ("foo cmd")) 5], Shell.Disabled,
        Custom.Disabled, Numbered.Enabled (":"),
        BinPath.Enabled [some [Except.ok (FsTree.node (some ("/usr/bin/bar")) ("bar")
          (Except.ok false) (Except.ok false) true none)]] true false 7⟩ =
      .ok (sort_entries [⟨"bar", Run.Bare ["/usr/bin/bar"], 7⟩,
            ⟨"foo", Run.Shell ("foo cmd"), 5⟩], 0)
    ∧ RunEntry.mk ("bar") (Run.Bare ["/usr/bin/bar"]) 7 ∈
        sort_entries [⟨"bar", Run.Bare ["/usr/bin/bar"], 7⟩,
          ⟨"foo", Run.Shell ("foo cmd"), 5⟩] :=
  (claim4_merge_precedence ("foo") ("bar") ("/usr/bin/bar") (Run.Shell ("foo cmd")) 5 7
    Shell.Disabled Custom.Disabled (Numbered.Enabled (":"))).2.2 true (by decide)

/-- C7 counterexample: in piped shell mode a failed shell spawn aborts the
whole dispatch with a fatal error instead of warning and continuing, so the
claim that a spawn failure never aborts dispatch in every execution mode fails
on a two-command batch whose spawns fail. -/
theorem claim7_piped_abort_counterexample :
    run_commands (fun _ => false)
        { entries := [], shell := Shell.Enabled ["sh"] true, custom := Custom.Disabled,
          numbered := Numbered.Enabled (":"), path := BinPath.Disabled }
        [Run.Shell ("a"), Run.Shell ("b")] = .error () :=
  rfl

/-- C7 amended: an individual spawn failure of a bare command or of a shell
command in argument mode is one warning and dispatch continues, and dispatch
always completes when the shell policy is not piped-enabled; but in piped mode
a failed shell spawn aborts the whole dispatch with an error. -/
theorem claim7_dispatch_isolation_amended :
    (∀ (spawn_ok : ImStr → Bool) (config : Config) (cmds : List Run),
        (∀ sv : List ImStr, config.shell ≠ Shell.Enabled sv true) →
        ∃ evs w, run_commands spawn_ok config cmds = .ok (evs, w))
    ∧ (∀ (spawn_ok : ImStr → Bool) (config : Config) (bin : ImStr) (args : List ImStr)
        (rest : List Run), spawn_ok bin = false →
        run_commands spawn_ok config (Run.Bare (bin :: args) :: rest) =
          Except.map (fun p => (SpawnEvent.bare bin args :: p.1, 1 + p.2))
            (run_commands spawn_ok config rest))
    ∧ (∀ (spawn_ok : ImStr → Bool) (es : List Entry) (cu : Custom) (nu : Numbered)
        (bp : BinPath) (sname : ImStr) (sargs : List ImStr) (run : ImStr) (rest : List Run),
        spawn_ok sname = false → run.isEmpty = false →
        run_commands spawn_ok ⟨es, Shell.Enabled (sname :: sargs) false, cu, nu, bp⟩
            (Run.Shell run :: rest) =
          Except.map (fun p => (SpawnEvent.shell_args sname sargs run :: p.1, 1 + p.2))
            (run_commands spawn_ok ⟨es, Shell.Enabled (sname :: sargs) false, cu, nu, bp⟩
              rest))
    ∧ (∀ (spawn_ok : ImStr → Bool) (es : List Entry) (cu : Custom) (nu : Numbered)
        (bp : BinPath) (sname : ImStr) (sargs : List ImStr) (run : ImStr) (rest : List Run),
        spawn_ok sname = false → run.isEmpty = false →
        run_commands spawn_ok ⟨es, Shell.Enabled (sname :: sargs) true, cu, nu, bp⟩
            (Run.Shell run :: rest) = .error ()) := by
  refine ⟨?_, ?_, ?_, ?_⟩
  · intro so config cmds h
    induction cmds with
    | nil => exact ⟨[], 0, rfl⟩
    | cons c rest ih =>
      obtain ⟨evs2, w2, h2⟩ := ih
      have hstep : ∃ evs w, step_one so config c = .ok (evs, w) := by
        cases c with
        | Bare run =>
          cases run with
          | nil => exact ⟨[], 0, rfl⟩
          | cons bin args =>
            cases hso : so bin
            · exact ⟨[.bare bin args], 1, by simp [step_one, hso]⟩
            · exact ⟨[.bare bin args], 0, by simp [step_one, hso]⟩
        | Shell run =>
          by_cases he : run.isEmpty
          · exact ⟨[], 0, by simp [step_one, he]⟩
          · cases hs : config.shell with
            | Disabled => exact ⟨[], 1, by simp [step_one, he, hs]⟩
            | Enabled sv piped =>
              cases piped with
              | false =>
                cases sv with
                | nil => exact ⟨[], 0, by simp [step_one, he, hs]⟩
                | cons sn sa =>
                  cases hso : so sn
                  · exact ⟨[.shell_args sn sa run], 1, by simp [step_one, he, hs, hso]⟩
                  · exact ⟨[.shell_args sn sa run], 0, by simp [step_one, he, hs, hso]⟩
              | true => exact absurd hs (h sv)
      obtain ⟨evs, w, hst⟩ := hstep
      exact ⟨evs ++ evs2, w + w2, by simp [run_commands, hst, h2]⟩
  · intro so config bin args rest h
    cases hr : run_commands so config rest with
    | error u => simp [run_commands, step_one, h, hr, Except.map]
    | ok p =>
      obtain ⟨evs2, w2⟩ := p
      simp [run_commands, step_one, h, hr, Except.map]
  · intro so es cu nu bp sname sargs run rest h he
    cases hr : run_commands so ⟨es, Shell.Enabled (sname :: sargs) false, cu, nu, bp⟩ rest with
    | error u => simp [run_commands, step_one, h, he, hr, Except.map]
    | ok p =>
      obtain ⟨evs2, w2⟩ := p
      simp [run_commands, step_one, h, he, hr, Except.map]
  · intro so es cu nu bp sname sargs run rest h he
    simp [run_commands, step_one, h, he]

theorem claim7_dispatch_isolation_amended_witness :
    (∃ evs w, run_commands (fun _ => false)
        { entries := [], shell := Shell.Enabled ["sh"] false, custom := Custom.Disabled,
          numbered := Numbered.Enabled (":"), path := BinPath.Disabled }
        [Run.Bare ["x"], Run.Shell ("y"), Run.Bare ["z"]] = .ok (evs, w))
    ∧ run_commands (fun _ => false)
        { entries := [], shell := Shell.Disabled, custom := Custom.Disabled,
          numbered := Numbered.Enabled (":"), path := BinPath.Disabled }
        [Run.Bare ["x"]] =
      Except.map (fun p => (SpawnEvent.bare ("x") [] :: p.1, 1 + p.2))
        (run_commands (fun _ => false)
          { entries := [], shell := Shell.Disabled, custom := Custom.Disabled,
            numbered := Numbered.Enabled (":"), path := BinPath.Disabled } [])
    ∧ run_commands (fun _ => false)
        ⟨[], Shell.Enabled ["sh"] true, Custom.Disabled, Numbered.Enabled (":"),
          BinPath.Disabled⟩ [Run.Shell ("y")] = .error () :=
  ⟨claim7_dispatch_isolation_amended.1 _ _ _
      (by intro sv hs; injection hs with h1 h2; exact Bool.noConfusion h2),
   claim7_dispatch_isolation_amended.2.1 _ _ _ _ _ rfl,
   claim7_dispatch_isolation_amended.2.2.2 _ [] Custom.Disabled (Numbered.Enabled (":"))
     BinPath.Disabled ("sh") [] ("y") [] rfl rfl⟩

/-- C8 counterexample: an error while reading the file type of an item in a
readable search directory is propagated as a fatal error, so build_entries
aborts instead of warning and returning a list as the claim states. -/
theorem claim8_metadata_abort_counterexample :
    build_entries
        { entries := [], shell := Shell.Disabled, custom := Custom.Disabled,
          numbered := Numbered.Enabled (":"),
          path := BinPath.Enabled [some [Except.ok (FsTree.node (some ("/b/f")) ("f")
            (Except.error ()) (Except.ok false) true none)]] true false 0 } =
      .error () :=
  rfl

/-- C8 amended: an unreadable search directory is skipped silently (removing
it from the root list changes nothing, warnings included); a broken symlink
(metadata error while following a possible symlink) is one warning and the
walk continues, and build_entries still returns a list; but an error reading a
directory item or its file type aborts the walk and build_entries with a fatal
error. -/
theorem claim8_discovery_errors_amended :
    (∀ (es : List Entry) (sh : Shell) (cu : Custom) (nu : Numbered)
        (roots1 roots2 : List (Option (List (Except Unit FsTree))))
        (replace recursive : Bool) (g : Int),
        build_entries ⟨es, sh, cu, nu,
            BinPath.Enabled (roots1 ++ none :: roots2) replace recursive g⟩ =
          build_entries ⟨es, sh, cu, nu,
            BinPath.Enabled (roots1 ++ roots2) replace recursive g⟩)
    ∧ (∀ (p : Option ImStr) (name : ImStr) (cs : Option (List (Except Unit FsTree)))
        (rest : List (Except Unit FsTree)),
        walk_dir (Except.ok (FsTree.node p name (Except.ok false) (Except.error ())
            false cs) :: rest) =
          Except.map (fun r => (r.1, r.2.1, 1 + r.2.2)) (walk_dir rest))
    ∧ (∀ (sh : Shell) (cu : Custom) (nu : Numbered) (p : Option ImStr) (name : ImStr)
        (cs : Option (List (Except Unit FsTree))) (replace : Bool) (g : Int),
        build_entries ⟨[], sh, cu, nu, BinPath.Enabled [some [Except.ok (FsTree.node p name
            (Except.ok false) (Except.error ()) false cs)]] replace false g⟩ =
          .ok ([], 1))
    ∧ (∀ (p : Option ImStr) (name : ImStr) (fm : Except Unit Bool) (ex : Bool)
        (cs : Option (List (Except Unit FsTree))) (rest : List (Except Unit FsTree)),
        walk_dir (Except.error () :: rest) = .error ()
        ∧ walk_dir (Except.ok (FsTree.node p name (Except.error ()) fm ex cs) :: rest) =
            .error ())
    ∧ (∀ (es : List Entry) (sh : Shell) (cu : Custom) (nu : Numbered) (p : Option ImStr)
        (name : ImStr) (fm : Except Unit Bool) (ex : Bool)
        (cs : Option (List (Except Unit FsTree))) (replace recursive : Bool) (g : Int),
        build_entries ⟨es, sh, cu, nu, BinPath.Enabled [some [Except.ok (FsTree.node p name
            (Except.error ()) fm ex cs)]] replace recursive g⟩ =
          .error ()) := by
  refine ⟨?_, ?_, ?_, ?_, ?_⟩
  · intro es sh cu nu roots1 roots2 replace recursive g
    simp only [build_entries, List.filterMap_append, List.filterMap_cons, path_bins_one]
  · intro p name cs rest
    cases hr : walk_dir rest with
    | error u => simp [walk_dir, walk_one, hr, Except.map]
    | ok r =>
      obtain ⟨rs, fs, ws⟩ := r
      simp [walk_dir, walk_one, hr, Except.map]
  · intro sh cu nu p name cs replace g
    simp [build_entries, menu_map, roots_loop, path_bins_one, walk_dir, walk_one,
      merge_bins, sort_entries]
  · intro p name fm ex cs rest
    exact ⟨rfl, rfl⟩
  · intro es sh cu nu p name fm ex cs replace recursive g
    simp [build_entries, roots_loop, path_bins_one, walk_dir, walk_one]

/-! Facts about the menu renderer. -/

theorem join_cons (a : String) (l : List String) :
    String.join (a :: l) = a ++ String.join l := by
  apply String.ext
  rw [String.data_append, String.data_join, String.data_join, List.map_cons,
    List.flatten_cons]

theorem foldl_append_join {α : Type _} (f : α → String) (l : List α) :
    ∀ init : String, l.foldl (fun d x => d ++ f x) init = init ++ String.join (l.map f) := by
  induction l with
  | nil =>
    intro init
    simp [String.join]
  | cons x xs ih =>
    intro init
    rw [List.map_cons, join_cons, List.foldl_cons, ih, String.append_assoc]

theorem join_count_newlines :
    ∀ ls : List String, (∀ s ∈ ls, s.data.count ('\n') = 1) →
      (String.join ls).data.count ('\n') = ls.length := by
  intro ls
  induction ls with
  | nil => intro h; rfl
  | cons s rest ih =>
    intro h
    rw [join_cons, String.data_append, List.count_append, h s (List.mem_cons_self s rest),
      ih (fun t ht => h t (List.mem_cons_of_mem s ht)), List.length_cons]
    omega

/-- C6: the rendered menu text is the newline-terminated concatenation, in
resolved order, of one line per entry built from the tag string and the
display name (joined by the configured separator in numbered mode, and with
the codec appending its own marker otherwise); when names, tag strings and
separator contain no newline the output holds exactly one newline per entry,
and the output is a function of the list and codec alone. -/
theorem claim6_menu_render (config : Config) (push_tag : Nat → String)
    (entries : List RunEntry) :
    (display_entries config push_tag entries =
        String.join ((entries.enum).map (fun ie =>
          (if config.numbered.is_enabled then
            push_tag ie.1 ++ config.numbered.separator ++ ie.2.name
          else ie.2.name ++ push_tag ie.1) ++ "\n")))
    ∧ ((∀ ie ∈ entries.enum, ('\n') ∉ ie.2.name.data ∧ ('\n') ∉ (push_tag ie.1).data) →
        ('\n') ∉ config.numbered.separator.data →
        (display_entries config push_tag entries).data.count ('\n') = entries.length) := by
  have key : display_entries config push_tag entries =
      String.join ((entries.enum).map (fun ie =>
        (if config.numbered.is_enabled then
          push_tag ie.1 ++ config.numbered.separator ++ ie.2.name
        else ie.2.name ++ push_tag ie.1) ++ "\n")) := by
    unfold display_entries
    cases hn : config.numbered.is_enabled with
    | true =>
      simp only [eq_self_iff_true, if_true]
      have hf : (fun (d : String) (ie : Nat × RunEntry) =>
          d ++ push_tag ie.1 ++ config.numbered.separator ++ ie.2.name ++ "\n") =
          (fun (d : String) (ie : Nat × RunEntry) =>
            d ++ ((push_tag ie.1 ++ config.numbered.separator ++ ie.2.name) ++ "\n")) := by
        funext d ie
        simp [String.append_assoc]
      rw [hf, foldl_append_join, String.empty_append]
    | false =>
      simp only [Bool.false_eq_true, if_false]
      have hf : (fun (d : String) (ie : Nat × RunEntry) =>
          d ++ ie.2.name ++ push_tag ie.1 ++ "\n") =
          (fun (d : String) (ie : Nat × RunEntry) =>
            d ++ ((ie.2.name ++ push_tag ie.1) ++ "\n")) := by
        funext d ie
        simp [String.append_assoc]
      rw [hf, foldl_append_join, String.empty_append]
  refine ⟨key, ?_⟩
  intro h1 h2
  rw [key, join_count_newlines]
  · rw [List.length_map, List.enum_length]
  · intro s hs
    obtain ⟨ie, hie, rfl⟩ := List.mem_map.1 hs
    rw [String.data_append, List.count_append]
    have hbody : (if config.numbered.is_enabled then
        push_tag ie.1 ++ config.numbered.separator ++ ie.2.name
      else ie.2.name ++ push_tag ie.1).data.count ('\n') = 0 := by
      cases hn : config.numbered.is_enabled with
      | true =>
        simp only [eq_self_iff_true, if_true]
        rw [String.data_append, String.data_append, List.count_append,
          List.count_append, List.count_eq_zero.2 (h1 ie hie).2,
          List.count_eq_zero.2 h2, List.count_eq_zero.2 (h1 ie hie).1]
      | false =>
        simp only [Bool.false_eq_true, if_false]
        rw [String.data_append,
          List.count_append, List.count_eq_zero.2 (h1 ie hie).1,
          List.count_eq_zero.2 (h1 ie hie).2]
    rw [hbody]
    rfl

theorem claim6_menu_render_witness :
    (display_entries
        { entries := [], shell := Shell.Disabled, custom := Custom.Disabled,
          numbered := Numbered.Enabled (":"), path := BinPath.Disabled }
        Decimal.push_tag
        [⟨"alpha", Run.Bare ["alpha"], 0⟩, ⟨"beta", Run.Bare ["beta"], 0⟩]).data.count
      ('\n') = 2 :=
  (claim6_menu_render
    { entries := [], shell := Shell.Disabled, custom := Custom.Disabled,
      numbered := Numbered.Enabled (":"), path := BinPath.Disabled }
    Decimal.push_tag
    [⟨"alpha", Run.Bare ["alpha"], 0⟩, ⟨"beta", Run.Bare ["beta"], 0⟩]).2
    (by decide) (by decide)

end Dmm
